import Mathlib

/-!
Verification of the source-file patch engine of the AiDotNet build-fix
scripts.  Documents are modelled as lists of lines, each line a list of
characters (the shape produced by readlines, lines keeping their trailing
newline character), or as a single character list where the script works on
the whole file content.  File systems are modelled as partial maps from
paths to contents.
-/

/-- Whitespace test matching the character class used by the scripts
(the Python regex class backslash-s and the argument-free strip). -/
def isWS (c : Char) : Bool :=
  c = ' ' || c = '\t' || c = '\n' || c = '\r' || c = '\x0c' || c = '\x0b'

/-- Substring containment on character lists: embedding of the Python
expression testing whether pat occurs in s (the in operator on strings). -/
def listContains (pat : List Char) : List Char → Bool
  | [] => pat.isEmpty
  | c :: rest => pat.isPrefixOf (c :: rest) || listContains pat rest

/-- Number of positions of s at which pat occurs (occurrences may overlap);
used to state occurrence-count properties of documents. -/
def countOccur (pat : List Char) : List Char → Nat
  | [] => if pat.isEmpty then 1 else 0
  | c :: rest => (if pat.isPrefixOf (c :: rest) then 1 else 0) + countOccur pat rest

/-- Start marker of the interpretable-model region, from
fix_interpretable_region_indentation.py and fix_simpleautoml_indentation.py. -/
def startMarker : List Char := String.toList "#region IInterpretableModel Implementation"

/-- End marker of the region, from the same scripts. -/
def endMarker : List Char := String.toList "#endregion"

/-- One indent quantum: four space characters. -/
def fourSpaces : List Char := [' ', ' ', ' ', ' ']

/-- Two indent quanta: eight space characters. -/
def eightSpaces : List Char := fourSpaces ++ fourSpaces

/-- Rule applied to an in-region line by both reindenter scripts: add four
spaces when the line starts with four spaces and does not start with eight
spaces, otherwise keep the line. -/
def reindentLine (line : List Char) : List Char :=
  if fourSpaces.isPrefixOf line && !(eightSpaces.isPrefixOf line) then
    fourSpaces ++ line
  else
    line

/-- The marker-scan loop of the reindenter scripts: the boolean argument is
the in_region variable.  A line containing the start marker is kept and sets
in_region; a line containing the end marker while in_region is kept and
clears it; any other in-region line goes through reindentLine; lines outside
a region are kept verbatim. -/
def fixLines : Bool → List (List Char) → List (List Char)
  | _, [] => []
  | b, l :: rest =>
    if listContains startMarker l then l :: fixLines true rest
    else if listContains endMarker l && b then l :: fixLines false rest
    else if b then reindentLine l :: fixLines b rest
    else l :: fixLines b rest

/-- The full reindent pass over a document, starting outside any region. -/
def fixIndentation (lines : List (List Char)) : List (List Char) :=
  fixLines false lines

/-- Region-membership flags derived from the same state machine: a line is
flagged true when it is a marker line or is processed with in_region set. -/
def lineFlags : Bool → List (List Char) → List Bool
  | _, [] => []
  | b, l :: rest =>
    if listContains startMarker l then true :: lineFlags true rest
    else if listContains endMarker l && b then true :: lineFlags false rest
    else b :: lineFlags b rest

/-- Length of the leading-whitespace run of a line, the measure used by the
specification text for the indentation rule. -/
def leadingWhitespaceRun (l : List Char) : Nat :=
  (l.takeWhile isWS).length

/-- Match attempt for the declaration pattern of fix_async_errors.py, the
regex async backslash-s plus Task, at the head of the list: on success
returns the length of the match (the literal async, a maximal nonempty
whitespace run, then the literal Task). -/
def matchAsyncTask (l : List Char) : Option Nat :=
  if (String.toList "async").isPrefixOf l then
    let rest := l.drop 5
    let w := (rest.takeWhile isWS).length
    if 1 ≤ w then
      if (String.toList "Task").isPrefixOf (rest.drop w) then some (5 + w + 4)
      else none
    else none
  else none

/-- Match attempt for the fulfillment pattern, the regex await backslash-s
plus, at the head of the list: the literal await followed by a maximal
nonempty whitespace run. -/
def matchAwait (l : List Char) : Option Nat :=
  if (String.toList "await").isPrefixOf l then
    let w := ((l.drop 5).takeWhile isWS).length
    if 1 ≤ w then some (5 + w) else none
  else none

/-- Left-to-right non-overlapping scan, the counting behavior of re.findall:
try a match at each position, and resume after the matched span on success.
The fuel argument bounds the recursion and is instantiated with the length
of the scanned list, which suffices because every step consumes at least one
character. -/
def scanCount (step : List Char → Option Nat) : Nat → List Char → Nat
  | _, [] => 0
  | 0, _ => 0
  | fuel + 1, c :: rest =>
    match step (c :: rest) with
    | some n => 1 + scanCount step fuel ((c :: rest).drop n)
    | none => scanCount step fuel rest

/-- Count of non-overlapping matches of the declaration pattern, embedding
len of re.findall over async backslash-s plus Task. -/
def countAsyncTask (content : List Char) : Nat :=
  scanCount matchAsyncTask content.length content

/-- Count of non-overlapping matches of the fulfillment pattern, embedding
len of re.findall over await backslash-s plus. -/
def countAwait (content : List Char) : Nat :=
  scanCount matchAwait content.length content

/-- Embedding of fix_async_method_without_await of fix_async_errors.py,
applied to the file content it reads.  The script stores the content in
original_content, defines two rewrite patterns it never applies, counts the
two regex patterns, prints a deficit report when declarations exceed
fulfillments, and returns the pair of content not-equal original_content and
content.  The first component models the printed report as the reported
deficit, when any. -/
def fix_async_method_without_await (content : List Char) : Option Nat × Bool × List Char :=
  let original_content := content
  let async_count := countAsyncTask content
  let await_count := countAwait content
  let report := if await_count < async_count then some (async_count - await_count) else none
  (report, content != original_content, content)

/-- Embedding of the write-back portion of process_file of
fix_async_errors.py once the content has been read: the boolean records
whether the write branch ran, the second component is the resulting file
content. -/
def process_file_write (content : List Char) : Bool × List Char :=
  let r := fix_async_method_without_await content
  if r.2.1 then (true, r.2.2) else (false, content)

/-- Embedding of process_file of fix_async_errors.py over a modelled file
system: a missing path is reported and yields False; otherwise the result
says whether the file was changed and written. -/
def process_file (fs : List Char → Option (List Char)) (path : List Char) : Bool :=
  match fs path with
  | none => false
  | some content => (process_file_write content).1

/-- Per-file outcome reported on the console by the batch loop. -/
inductive FileResult
  | notFound
  | fixed
  | unchanged
deriving DecidableEq

/-- Console outcome of process_file for one path: file-not-found, fixed, or
unchanged. -/
def process_file_result (fs : List Char → Option (List Char)) (path : List Char) : FileResult :=
  match fs path with
  | none => FileResult.notFound
  | some content =>
    if (process_file_write content).1 then FileResult.fixed else FileResult.unchanged

/-- Embedding of main of fix_async_errors.py: the fixed_count accumulated by
the loop over the path list, paired with the number of attempted files. -/
def async_main (fs : List Char → Option (List Char)) (paths : List (List Char)) : Nat × Nat :=
  (paths.foldl (fun acc p => if process_file fs p then acc + 1 else acc) 0, paths.length)

/-- The sequence of per-file console outcomes of the same loop. -/
def async_main_results (fs : List Char → Option (List Char)) (paths : List (List Char)) :
    List FileResult :=
  paths.map (process_file_result fs)

/-- Python strip with no argument: remove leading and trailing whitespace. -/
def stripWS (l : List Char) : List Char :=
  (((l.dropWhile isWS).reverse).dropWhile isWS).reverse

/-- Python split on the newline character: always returns at least one
piece, and a trailing newline yields a trailing empty piece. -/
def splitNl : List Char → List (List Char)
  | [] => [[]]
  | c :: rest =>
    if c = '\n' then [] :: splitNl rest
    else
      match splitNl rest with
      | [] => [[c]]
      | l :: ls => (c :: l) :: ls

/-- Python join with a newline separator. -/
def joinNl : List (List Char) → List Char
  | [] => []
  | [l] => l
  | l :: l2 :: rest => l ++ '\n' :: joinNl (l2 :: rest)

/-- Python list.insert semantics: inserting at an index past the end
appends at the end. -/
def pyInsert (k : Nat) (x : List Char) : List (List Char) → List (List Char)
  | [] => [x]
  | l :: rest =>
    match k with
    | 0 => x :: l :: rest
    | k + 1 => l :: pyInsert k x rest

/-- The required declaration line of fix_remaining_cs0535.py. -/
def usingD : List Char := String.toList "using AiDotNet.Interpretability;"

/-- Anchor-line test used by check_and_add_using: the line stripped of
whitespace on both ends starts with the using keyword and a space, and the
line contains a semicolon. -/
def isUsingLine (l : List Char) : Bool :=
  (String.toList "using ").isPrefixOf (stripWS l) && l.contains ';'

/-- Anchor-line notion as the specification words it: after stripping only
leading whitespace, the line starts with the using keyword and a space, and
the line contains a semicolon. -/
def isAnchorSpec (l : List Char) : Bool :=
  (String.toList "using ").isPrefixOf (l.dropWhile isWS) && l.contains ';'

/-- Index of the last anchor line, mirroring the scan of check_and_add_using
that keeps overwriting last_using_idx: the match at the greatest index wins.
The accumulator is the index of the first element of the remaining list. -/
def lastUsingIdxAux : Nat → List (List Char) → Option Nat
  | _, [] => none
  | i, l :: rest =>
    match lastUsingIdxAux (i + 1) rest with
    | some j => some j
    | none => if isUsingLine l then some i else none

/-- Index of the last anchor line of a document, none when no line matches
(the Python sentinel minus one). -/
def lastUsingIdx (lines : List (List Char)) : Option Nat :=
  lastUsingIdxAux 0 lines

/-- Embedding of check_and_add_using of fix_remaining_cs0535.py on the file
content: when the required line is absent, split into lines, find the last
anchor line, and when one exists insert the required line right after it and
write the joined text back; returns whether a write happened together with
the resulting content. -/
def check_and_add_using (content : List Char) : Bool × List Char :=
  if listContains usingD content then (false, content)
  else
    match lastUsingIdx (splitNl content) with
    | some i => (true, joinNl (pyInsert (i + 1) usingD (splitNl content)))
    | none => (false, content)

/-- Per-file step of the batch loop of
fix_interpretable_region_indentation.py and of
fix_simpleautoml_indentation.py once the lines have been read: the
transformed lines are written back unconditionally, so the write flag is
always true. -/
def regionIndentProcessFile (lines : List (List Char)) : Bool × List (List Char) :=
  let fixed_lines := fixIndentation lines
  (true, fixed_lines)

/-- Example content with three declaration-pattern matches and one
fulfillment-pattern match. -/
def ex31 : List Char := String.toList "async Task A async Task B async Task C await x"

/-- Example content with two declaration-pattern matches and two
fulfillment-pattern matches. -/
def ex22 : List Char := String.toList "async Task A await x async Task B await y"

/-- Document consisting of the required declaration line twice. -/
def exTwice : List Char := usingD ++ '\n' :: usingD

/-- Content with no anchor line and without the required declaration. -/
def exNoAnchor : List Char := String.toList "int x = 1;\nreturn;"

/-- One-line document without any region marker. -/
def exPlain : List (List Char) := [String.toList "x"]

/-- A line whose leading-whitespace run is five characters. -/
def exLine5 : List Char := String.toList "     x"

/-- A line whose leading-whitespace run is four characters. -/
def exLine4 : List Char := String.toList "    x"

/-- Three-line document: start marker, the five-space line, end marker. -/
def exDoc5 : List (List Char) := [startMarker, exLine5, endMarker]

/-- Five-line document with lines before and after a marked region. -/
def exDoc6 : List (List Char) :=
  [String.toList "a", startMarker, exLine4, endMarker, String.toList "c"]

/-- Document whose start-marker line carries four leading spaces. -/
def exDoc9 : List (List Char) :=
  [fourSpaces ++ startMarker, exLine4, fourSpaces ++ endMarker]

/-- Example path. -/
def exP1 : List Char := String.toList "a.cs"

/-- Example path that the example file system does not contain. -/
def exP2 : List Char := String.toList "b.cs"

/-- Example path. -/
def exP3 : List Char := String.toList "c.cs"

/-- Example file system containing the first and third paths only. -/
def exFS (p : List Char) : Option (List Char) :=
  if p = exP1 then some ex31 else if p = exP3 then some ex22 else none

/-- Content already containing the required declaration line. -/
def exWithD : List Char := usingD

/-- Content without the required declaration that has an anchor line. -/
def exInsert : List Char := String.toList "using A;\nclass C"


lemma isPrefixOf_append_left (p t : List Char) : p.isPrefixOf (p ++ t) = true := by
  induction p with
  | nil => simp
  | cons a q ih => simp [List.isPrefixOf, ih]

lemma isPrefixOf_self (p : List Char) : p.isPrefixOf p = true := by
  induction p with
  | nil => simp
  | cons a q ih => simp [List.isPrefixOf, ih]

lemma contains_of_isPrefixOf {p l : List Char} (h : p.isPrefixOf l = true) :
    listContains p l = true := by
  cases l with
  | nil =>
    cases p with
    | nil => rfl
    | cons a q => simp [List.isPrefixOf] at h
  | cons c rest => simp [listContains, h]

lemma contains_cons_tail {p : List Char} (c : Char) {l : List Char}
    (h : listContains p l = true) : listContains p (c :: l) = true := by
  simp [listContains, h]

lemma contains_append_right {p b : List Char} (a : List Char)
    (h : listContains p b = true) : listContains p (a ++ b) = true := by
  induction a with
  | nil => simpa using h
  | cons c q ih => exact contains_cons_tail c ih

lemma hash_head_cons_space (p : List Char) (hp : p.head? = some '#') (l : List Char) :
    listContains p (' ' :: l) = listContains p l := by
  cases p with
  | nil => simp at hp
  | cons a q =>
    have ha : a = '#' := by simpa using hp
    subst ha
    have hb : (('#' : Char) == ' ') = false := by decide
    simp [listContains, List.isPrefixOf, hb]

lemma contains_fourSpaces_cancel (p : List Char) (hp : p.head? = some '#') (l : List Char) :
    listContains p (fourSpaces ++ l) = listContains p l := by
  show listContains p (' ' :: ' ' :: ' ' :: ' ' :: l) = listContains p l
  rw [hash_head_cons_space p hp, hash_head_cons_space p hp, hash_head_cons_space p hp,
    hash_head_cons_space p hp]

lemma four_isPrefixOf_four_append (l : List Char) :
    fourSpaces.isPrefixOf (fourSpaces ++ l) = true :=
  isPrefixOf_append_left fourSpaces l

lemma eight_isPrefixOf_four_append (l : List Char) :
    eightSpaces.isPrefixOf (fourSpaces ++ l) = fourSpaces.isPrefixOf l := by
  show (' ' :: ' ' :: ' ' :: ' ' :: fourSpaces).isPrefixOf (' ' :: ' ' :: ' ' :: ' ' :: l) =
    fourSpaces.isPrefixOf l
  simp [List.isPrefixOf]

lemma reindentLine_four_append (l : List Char) (h4 : fourSpaces.isPrefixOf l = true) :
    reindentLine (fourSpaces ++ l) = fourSpaces ++ l := by
  simp [reindentLine, eight_isPrefixOf_four_append, h4]

lemma fixLines_idem (ls : List (List Char)) :
    ∀ b, fixLines b (fixLines b ls) = fixLines b ls := by
  induction ls with
  | nil => intro b; rfl
  | cons l rest ih =>
    intro b
    cases hs : listContains startMarker l with
    | true => simp [fixLines, hs, ih]
    | false =>
      cases b with
      | false => simp [fixLines, hs, ih]
      | true =>
        cases he : listContains endMarker l with
        | true => simp [fixLines, hs, he, ih]
        | false =>
          cases h4 : fourSpaces.isPrefixOf l with
          | false =>
            have hr : reindentLine l = l := by simp [reindentLine, h4]
            simp [fixLines, hs, he, hr, ih]
          | true =>
            cases h8 : eightSpaces.isPrefixOf l with
            | true =>
              have hr : reindentLine l = l := by simp [reindentLine, h8]
              simp [fixLines, hs, he, hr, ih]
            | false =>
              have hr : reindentLine l = fourSpaces ++ l := by
                simp [reindentLine, h4, h8]
              have hs2 : listContains startMarker (fourSpaces ++ l) = false := by
                rw [contains_fourSpaces_cancel startMarker (by decide) l]; exact hs
              have he2 : listContains endMarker (fourSpaces ++ l) = false := by
                rw [contains_fourSpaces_cancel endMarker (by decide) l]; exact he
              have hr2 : reindentLine (fourSpaces ++ l) = fourSpaces ++ l :=
                reindentLine_four_append l h4
              simp [fixLines, hs, he, hr, hs2, he2, hr2, ih]

/-- C1: the full reindent pass (marker scan plus indentation rule) is
idempotent on every document: applying it twice yields exactly the result of
applying it once. -/
theorem C1_reindenter_idempotent (lines : List (List Char)) :
    fixIndentation (fixIndentation lines) = fixIndentation lines :=
  fixLines_idem lines false

lemma fixLines_outside (ls : List (List Char)) :
    ∀ b i, (lineFlags b ls).get? i = some false → (fixLines b ls).get? i = ls.get? i := by
  induction ls with
  | nil => intro b i h; simp [lineFlags] at h
  | cons l rest ih =>
    intro b i h
    cases hs : listContains startMarker l with
    | true =>
      cases i with
      | zero => simp [lineFlags, hs] at h
      | succ i =>
        have h2 : (lineFlags true rest).get? i = some false := by
          simpa [lineFlags, hs] using h
        simpa [fixLines, hs] using ih true i h2
    | false =>
      cases he : listContains endMarker l with
      | true =>
        cases b with
        | true =>
          cases i with
          | zero => simp [lineFlags, hs, he] at h
          | succ i =>
            have h2 : (lineFlags false rest).get? i = some false := by
              simpa [lineFlags, hs, he] using h
            simpa [fixLines, hs, he] using ih false i h2
        | false =>
          cases i with
          | zero => simp [fixLines, hs, he]
          | succ i =>
            have h2 : (lineFlags false rest).get? i = some false := by
              simpa [lineFlags, hs, he] using h
            simpa [fixLines, hs, he] using ih false i h2
      | false =>
        cases b with
        | true =>
          cases i with
          | zero => simp [lineFlags, hs, he] at h
          | succ i =>
            have h2 : (lineFlags true rest).get? i = some false := by
              simpa [lineFlags, hs, he] using h
            simpa [fixLines, hs, he] using ih true i h2
        | false =>
          cases i with
          | zero => simp [fixLines, hs, he]
          | succ i =>
            have h2 : (lineFlags false rest).get? i = some false := by
              simpa [lineFlags, hs, he] using h
            simpa [fixLines, hs, he] using ih false i h2

/-- C6: a line flagged outside any marked region by the scanner appears
byte-identical at its position in the output of the reindent pass. -/
theorem C6_outside_region_verbatim (lines : List (List Char)) (i : Nat)
    (h : (lineFlags false lines).get? i = some false) :
    (fixIndentation lines).get? i = lines.get? i :=
  fixLines_outside lines false i h

/-- Witness for C6 at a concrete document and position. -/
theorem C6_outside_region_verbatim_witness :
    (lineFlags false exDoc6).get? 0 = some false ∧
    (fixIndentation exDoc6).get? 0 = exDoc6.get? 0 :=
  ⟨by decide, C6_outside_region_verbatim exDoc6 0 (by decide)⟩

lemma fixLines_marker_verbatim (ls : List (List Char)) :
    ∀ b i l, ls.get? i = some l →
      (listContains startMarker l = true ∨ listContains endMarker l = true) →
      (fixLines b ls).get? i = some l := by
  induction ls with
  | nil => intro b i l h hm; simp at h
  | cons x rest ih =>
    intro b i l h hm
    cases i with
    | zero =>
      have hx : x = l := by simpa using h
      subst hx
      cases hs : listContains startMarker x with
      | true => simp [fixLines, hs]
      | false =>
        have he : listContains endMarker x = true := by
          rcases hm with hm | hm
          · rw [hs] at hm; exact absurd hm (by simp)
          · exact hm
        cases b with
        | true => simp [fixLines, hs, he]
        | false => simp [fixLines, hs, he]
    | succ i =>
      have h2 : rest.get? i = some l := by simpa using h
      cases hs : listContains startMarker x with
      | true => simpa [fixLines, hs] using ih true i l h2 hm
      | false =>
        cases he : listContains endMarker x with
        | true =>
          cases b with
          | true => simpa [fixLines, hs, he] using ih false i l h2 hm
          | false => simpa [fixLines, hs, he] using ih false i l h2 hm
        | false =>
          cases b with
          | true => simpa [fixLines, hs, he] using ih true i l h2 hm
          | false => simpa [fixLines, hs, he] using ih false i l h2 hm

/-- C9: a line containing the start marker or the end marker is always
emitted verbatim by the reindent pass, whatever its leading whitespace; the
indentation rule therefore only ever touches lines strictly between the two
marker lines. -/
theorem C9_marker_lines_verbatim (lines : List (List Char)) (i : Nat) (l : List Char)
    (h1 : lines.get? i = some l)
    (h2 : listContains startMarker l = true ∨ listContains endMarker l = true) :
    (fixIndentation lines).get? i = some l :=
  fixLines_marker_verbatim lines false i l h1 h2

/-- Witness for C9 at a start-marker line carrying four leading spaces. -/
theorem C9_marker_lines_verbatim_witness :
    exDoc9.get? 0 = some (fourSpaces ++ startMarker) ∧
    listContains startMarker (fourSpaces ++ startMarker) = true ∧
    (fixIndentation exDoc9).get? 0 = some (fourSpaces ++ startMarker) :=
  ⟨by decide, by decide,
    C9_marker_lines_verbatim exDoc9 0 (fourSpaces ++ startMarker) (by decide)
      (Or.inl (by decide))⟩

/-- Counterexample for C5 as stated: the five-space line inside the region
has a leading-whitespace run of five characters, neither one quantum nor
two, yet the reindent pass prepends one quantum to it. -/
theorem C5_counterexample :
    leadingWhitespaceRun exLine5 = 5 ∧
    fixIndentation exDoc5 = [startMarker, fourSpaces ++ exLine5, endMarker] := by
  decide

/-- C5 amended: the rule applied to every in-region line prepends exactly
one quantum if and only if the line starts with four space characters and
does not start with eight space characters; every other in-region line is
left unchanged. -/
theorem C5_reindent_rule_amended (l : List Char) :
    (fourSpaces.isPrefixOf l = true ∧ eightSpaces.isPrefixOf l = false →
      reindentLine l = fourSpaces ++ l) ∧
    (¬(fourSpaces.isPrefixOf l = true ∧ eightSpaces.isPrefixOf l = false) →
      reindentLine l = l) ∧
    (reindentLine l = fourSpaces ++ l →
      fourSpaces.isPrefixOf l = true ∧ eightSpaces.isPrefixOf l = false) := by
  refine ⟨?_, ?_, ?_⟩
  · rintro ⟨h4, h8⟩
    simp [reindentLine, h4, h8]
  · intro hn
    cases h4 : fourSpaces.isPrefixOf l with
    | false => simp [reindentLine, h4]
    | true =>
      cases h8 : eightSpaces.isPrefixOf l with
      | true => simp [reindentLine, h8]
      | false => exact absurd ⟨h4, h8⟩ hn
  · intro h
    cases h4 : fourSpaces.isPrefixOf l with
    | false =>
      rw [reindentLine, h4] at h
      simp at h
      have hlen := congrArg List.length h
      simp [fourSpaces] at hlen
    | true =>
      cases h8 : eightSpaces.isPrefixOf l with
      | false => exact ⟨rfl, rfl⟩
      | true =>
        rw [reindentLine, h4, h8] at h
        simp at h
        have hlen := congrArg List.length h
        simp [fourSpaces] at hlen

/-- Witness for the amended C5 at a four-space line. -/
theorem C5_reindent_rule_amended_witness :
    (fourSpaces.isPrefixOf exLine4 = true ∧ eightSpaces.isPrefixOf exLine4 = false) ∧
    reindentLine exLine4 = fourSpaces ++ exLine4 :=
  ⟨by decide, (C5_reindent_rule_amended exLine4).1 (by decide)⟩

lemma fix_async_content_unchanged (content : List Char) :
    (fix_async_method_without_await content).2.1 = false ∧
    (fix_async_method_without_await content).2.2 = content := by
  constructor
  · show (content != content) = false
    simp
  · rfl

/-- C2: the pattern counter is detect-only.  When the declaration count
exceeds the fulfillment count the deficit is reported, but the returned text
is identical to the original content and the changed flag is false. -/
theorem C2_detect_only (content : List Char)
    (h : countAwait content < countAsyncTask content) :
    (fix_async_method_without_await content).1 =
      some (countAsyncTask content - countAwait content) ∧
    (fix_async_method_without_await content).2.1 = false ∧
    (fix_async_method_without_await content).2.2 = content := by
  refine ⟨?_, fix_async_content_unchanged content⟩
  show (if countAwait content < countAsyncTask content then
    some (countAsyncTask content - countAwait content) else none) = _
  rw [if_pos h]

/-- Witness for C2 at content with three declarations and one fulfillment. -/
theorem C2_detect_only_witness :
    countAwait ex31 < countAsyncTask ex31 ∧
    ((fix_async_method_without_await ex31).1 =
      some (countAsyncTask ex31 - countAwait ex31) ∧
    (fix_async_method_without_await ex31).2.1 = false ∧
    (fix_async_method_without_await ex31).2.2 = ex31) :=
  ⟨by decide, C2_detect_only ex31 (by decide)⟩

/-- C8: the detector reports the deficit, declarations minus fulfillments,
exactly when it is positive, and reports nothing otherwise. -/
theorem C8_deficit_counting (content : List Char) :
    (countAwait content < countAsyncTask content →
      (fix_async_method_without_await content).1 =
        some (countAsyncTask content - countAwait content)) ∧
    (countAsyncTask content ≤ countAwait content →
      (fix_async_method_without_await content).1 = none) := by
  constructor
  · intro h
    show (if countAwait content < countAsyncTask content then
      some (countAsyncTask content - countAwait content) else none) = _
    rw [if_pos h]
  · intro h
    show (if countAwait content < countAsyncTask content then
      some (countAsyncTask content - countAwait content) else none) = _
    rw [if_neg (Nat.not_lt.mpr h)]

/-- Witness for C8: three declaration matches and one fulfillment match
report a deficit of two; two and two report nothing. -/
theorem C8_deficit_counting_witness :
    (countAsyncTask ex31 = 3 ∧ countAwait ex31 = 1 ∧
      (fix_async_method_without_await ex31).1 = some 2) ∧
    (countAsyncTask ex22 = 2 ∧ countAwait ex22 = 2 ∧
      (fix_async_method_without_await ex22).1 = none) := by
  refine ⟨⟨by decide, by decide, ?_⟩, ⟨by decide, by decide, ?_⟩⟩
  · have h := (C8_deficit_counting ex31).1 (by decide)
    rw [h]
    decide
  · exact (C8_deficit_counting ex22).2 (by decide)

/-- Counterexample for C3 as stated: on a one-line document that the
reindent pass leaves unchanged, the batch loop of the region-indentation
scripts still performs a write, since the write-back is unconditional. -/
theorem C3_counterexample :
    fixIndentation exPlain = exPlain ∧ regionIndentProcessFile exPlain = (true, exPlain) := by
  decide

/-- C3 amended: the fix_async_errors runner writes back exactly when the
transformed text differs from the original, which never happens because the
fixer returns the content untouched; the region-indentation runners write
back unconditionally, even when the transformed text equals the original. -/
theorem C3_write_back_amended (lines : List (List Char)) (content : List Char) :
    (regionIndentProcessFile lines).1 = true ∧
    (regionIndentProcessFile lines).2 = fixIndentation lines ∧
    ((process_file_write content).1 = true ↔ (process_file_write content).2 ≠ content) ∧
    (process_file_write content).2 = content := by
  have hc := fix_async_content_unchanged content
  have hw : process_file_write content = (false, content) := by
    rw [process_file_write, hc.1]
    simp
  refine ⟨rfl, rfl, ?_, by rw [hw]⟩
  rw [hw]
  simp

lemma process_file_write_eq (content : List Char) :
    process_file_write content = (false, content) := by
  rw [process_file_write, (fix_async_content_unchanged content).1]
  simp

lemma process_file_eq_false (fs : List Char → Option (List Char)) (p : List Char) :
    process_file fs p = false := by
  cases h : fs p with
  | none => simp [process_file, h]
  | some content => simp [process_file, h, process_file_write_eq]

lemma process_file_result_not_fixed (fs : List Char → Option (List Char)) (p : List Char) :
    process_file_result fs p ≠ FileResult.fixed := by
  cases h : fs p with
  | none => simp [process_file_result, h]
  | some content => simp [process_file_result, h, process_file_write_eq]

/-- C7: a missing path in the batch is recorded as file-not-found while the
remaining files are still processed; the total counts every attempted file
and the fixed count equals the number of files whose outcome is fixed. -/
theorem C7_batch_isolation (fs : List Char → Option (List Char))
    (p1 p2 p3 : List Char) (h : fs p2 = none) :
    async_main_results fs [p1, p2, p3] =
      [process_file_result fs p1, FileResult.notFound, process_file_result fs p3] ∧
    (async_main fs [p1, p2, p3]).2 = 3 ∧
    (async_main fs [p1, p2, p3]).1 =
      (async_main_results fs [p1, p2, p3]).countP
        (fun r => decide (r = FileResult.fixed)) := by
  refine ⟨?_, rfl, ?_⟩
  · simp [async_main_results, process_file_result, h]
  · have hm : process_file_result fs p2 = FileResult.notFound := by
      simp [process_file_result, h]
    have h1 : decide (process_file_result fs p1 = FileResult.fixed) = false :=
      decide_eq_false (process_file_result_not_fixed fs p1)
    have h3 : decide (process_file_result fs p3 = FileResult.fixed) = false :=
      decide_eq_false (process_file_result_not_fixed fs p3)
    have h2 : decide (FileResult.notFound = FileResult.fixed) = false := by decide
    simp [async_main, async_main_results, process_file_eq_false, List.countP_cons, hm, h1, h3,
      h2]

/-- Witness for C7 on a concrete three-file batch whose second path is
missing. -/
theorem C7_batch_isolation_witness :
    exFS exP2 = none ∧
    (async_main_results exFS [exP1, exP2, exP3] =
      [process_file_result exFS exP1, FileResult.notFound, process_file_result exFS exP3] ∧
    (async_main exFS [exP1, exP2, exP3]).2 = 3 ∧
    (async_main exFS [exP1, exP2, exP3]).1 =
      (async_main_results exFS [exP1, exP2, exP3]).countP
        (fun r => decide (r = FileResult.fixed))) :=
  ⟨by decide, C7_batch_isolation exFS exP1 exP2 exP3 (by decide)⟩

lemma mem_pyInsert (k : Nat) (x : List Char) (ls : List (List Char)) :
    x ∈ pyInsert k x ls := by
  induction ls generalizing k with
  | nil => simp [pyInsert]
  | cons l rest ih =>
    cases k with
    | zero => simp [pyInsert]
    | succ k =>
      simp only [pyInsert, List.mem_cons]
      exact Or.inr (ih k)

lemma contains_joinNl_of_mem {x : List Char} {ls : List (List Char)} (h : x ∈ ls) :
    listContains x (joinNl ls) = true := by
  induction ls with
  | nil => simp at h
  | cons l rest ih =>
    rcases List.mem_cons.mp h with hx | hx
    · subst hx
      cases rest with
      | nil => exact contains_of_isPrefixOf (isPrefixOf_self x)
      | cons l2 rest2 =>
        show listContains x (x ++ '\n' :: joinNl (l2 :: rest2)) = true
        exact contains_of_isPrefixOf (isPrefixOf_append_left x _)
    · cases rest with
      | nil => simp at hx
      | cons l2 rest2 =>
        show listContains x (l ++ '\n' :: joinNl (l2 :: rest2)) = true
        exact contains_append_right l (contains_cons_tail '\n' (ih hx))

lemma check_noop_of_contains (content : List Char)
    (h : listContains usingD content = true) :
    check_and_add_using content = (false, content) := by
  simp [check_and_add_using, h]

lemma check_result_of_changed (content : List Char)
    (h : (check_and_add_using content).1 = true) :
    ∃ i, lastUsingIdx (splitNl content) = some i ∧
      (check_and_add_using content).2 =
        joinNl (pyInsert (i + 1) usingD (splitNl content)) := by
  by_cases hc : listContains usingD content = true
  · simp [check_and_add_using, hc] at h
  · cases hi : lastUsingIdx (splitNl content) with
    | none => simp [check_and_add_using, hc, hi] at h
    | some i =>
      refine ⟨i, rfl, ?_⟩
      simp [check_and_add_using, hc, hi]

lemma contains_of_changed (content : List Char)
    (h : (check_and_add_using content).1 = true) :
    listContains usingD (check_and_add_using content).2 = true := by
  obtain ⟨i, _, he⟩ := check_result_of_changed content h
  rw [he]
  exact contains_joinNl_of_mem (mem_pyInsert (i + 1) usingD (splitNl content))

/-- Counterexample for C4 as stated: on a document that already contains the
required declaration line twice, both calls of the injector return the text
unchanged, so after two runs the line occurs twice, not exactly once. -/
theorem C4_counterexample :
    (check_and_add_using (check_and_add_using exTwice).2).2 = exTwice ∧
    countOccur usingD exTwice = 2 := by
  decide

/-- C4 amended: the injector never inserts a second copy of the required
line.  Text already containing the line verbatim passes through unchanged
with a false flag, and whenever a first call reports a change, its result
contains the line and a second call returns that result unchanged. -/
theorem C4_injector_amended (content : List Char) :
    (listContains usingD content = true → check_and_add_using content = (false, content)) ∧
    ((check_and_add_using content).1 = true →
      listContains usingD (check_and_add_using content).2 = true ∧
      check_and_add_using ((check_and_add_using content).2) =
        (false, (check_and_add_using content).2)) := by
  refine ⟨check_noop_of_contains content, ?_⟩
  intro h
  have hc := contains_of_changed content h
  exact ⟨hc, check_noop_of_contains _ hc⟩

/-- Witness for the amended C4: a document that is exactly the required line
is returned unchanged, and on a document with an anchor line and no required
line the first call inserts it and the second call is a no-op. -/
theorem C4_injector_amended_witness :
    (listContains usingD exWithD = true ∧ check_and_add_using exWithD = (false, exWithD)) ∧
    ((check_and_add_using exInsert).1 = true ∧
      (listContains usingD (check_and_add_using exInsert).2 = true ∧
        check_and_add_using ((check_and_add_using exInsert).2) =
          (false, (check_and_add_using exInsert).2))) :=
  ⟨⟨by decide, (C4_injector_amended exWithD).1 (by decide)⟩,
    ⟨by decide, (C4_injector_amended exInsert).2 (by decide)⟩⟩

lemma isPrefixOf_append_of (p y t : List Char) (h : p.isPrefixOf y = true) :
    p.isPrefixOf (y ++ t) = true := by
  induction p generalizing y with
  | nil => simp
  | cons a q ih =>
    cases y with
    | nil => simp at h
    | cons b ys =>
      rw [List.isPrefixOf_cons₂] at h
      rw [List.cons_append, List.isPrefixOf_cons₂]
      rcases Bool.and_eq_true_iff.mp h with ⟨hab, hq⟩
      rw [hab, ih ys hq]
      rfl

lemma stripWS_decomp (l : List Char) :
    stripWS l ++ ((l.dropWhile isWS).reverse.takeWhile isWS).reverse = l.dropWhile isWS := by
  rw [stripWS, ← List.reverse_append, List.takeWhile_append_dropWhile, List.reverse_reverse]

lemma isUsingLine_anchor {l : List Char} (h : isUsingLine l = true) :
    isAnchorSpec l = true := by
  rw [isUsingLine] at h
  rcases Bool.and_eq_true_iff.mp h with ⟨h1, h2⟩
  rw [isAnchorSpec, ← stripWS_decomp l, Bool.and_eq_true]
  exact ⟨isPrefixOf_append_of _ _ _ h1, h2⟩

lemma lastUsingIdxAux_eq_none {ls : List (List Char)}
    (h : ∀ l ∈ ls, isAnchorSpec l = false) : ∀ k, lastUsingIdxAux k ls = none := by
  induction ls with
  | nil => intro k; rfl
  | cons l rest ih =>
    intro k
    have hrest := ih (fun x hx => h x (List.mem_cons_of_mem l hx))
    have hl : isUsingLine l = false := by
      cases hu : isUsingLine l with
      | false => rfl
      | true =>
        have ha := isUsingLine_anchor hu
        rw [h l (List.mem_cons_self l rest)] at ha
        exact absurd ha (by simp)
    simp [lastUsingIdxAux, hrest, hl]

/-- C10: when the required declaration line is absent and no line of the
document is an anchor line (after stripping leading whitespace it starts
with the using keyword and a space, and it contains a semicolon),
check_and_add_using inserts nothing, performs no write, returns the content
unchanged, and reports false. -/
theorem C10_no_anchor_noop (content : List Char)
    (h1 : listContains usingD content = false)
    (h2 : ∀ l ∈ splitNl content, isAnchorSpec l = false) :
    check_and_add_using content = (false, content) := by
  have hn : lastUsingIdx (splitNl content) = none := lastUsingIdxAux_eq_none h2 0
  simp [check_and_add_using, h1, hn]

/-- Witness for C10 on a concrete document with semicolons but no anchor
line and no required declaration. -/
theorem C10_no_anchor_noop_witness :
    listContains usingD exNoAnchor = false ∧
    (∀ l ∈ splitNl exNoAnchor, isAnchorSpec l = false) ∧
    check_and_add_using exNoAnchor = (false, exNoAnchor) :=
  ⟨by decide, by decide, C10_no_anchor_noop exNoAnchor (by decide) (by decide)⟩
